import Mathlib

/-!
Verification of the dense fixed-rank tensor component of
prog3_tensor_final_project_v2025_01.

The repository contains three overlapping implementations of the same
`utec::algebra::Tensor<T, Rank>` template:
* `src/unnamed/part_000` — broadcasting elementwise `operator+ - *`,
  grow-on-reshape, free functions `transpose_2d` and `matrix_product`
  (namespace `P0` below);
* `src/include/utec/algebra/Tensor.h` — exact-shape `operator+ -`,
  broadcasting `operator*`, strict `reshape`, member `transpose_2d`
  (namespace `TH` below);
* a header embedded in `src/CMakeLists.txt` — exact-shape arithmetic,
  bounds-checked `operator()`, scalar forms including `scalar - tensor`
  (namespace `CM` below).

A tensor is modelled as a shape list (the `std::array<size_t, Rank>` of
axis sizes, rank = length of the list) together with the flat row-major
data buffer (the `std::vector<T>`).  Machine `size_t` arithmetic never
overflows in the scenarios the claims quantify over, so sizes and
indices are `Nat`.  Out-of-range `std::vector` reads (undefined
behaviour in C++) are modelled by `List.getD` returning `default`; all
theorems about element values carry the in-bounds hypotheses under
which the C++ reads are defined.
-/

/-- Value of a `Tensor<T, N>`: the `dimensions_` / `_shape` array and the
flat `data_` / `_data` buffer. -/
structure Tensor (α : Type) where
  shape : List Nat
  data : List α
deriving Repr, DecidableEq

/-- The data-model invariant `len(data) == product(shape)`. -/
def Tensor.sizeOk {α : Type} (t : Tensor α) : Prop :=
  t.data.length = t.shape.prod

instance {α : Type} (t : Tensor α) : Decidable t.sizeOk := by
  unfold Tensor.sizeOk; infer_instance

/-- Row-major flat offset of `compute_flat_index` / `compute_index`:
`offset = Σ idx[a] * stride[a]` with `stride[N-1] = 1` and
`stride[a] = stride[a+1] * shape[a+1]`, i.e. the stride of an axis is the
product of the axis sizes to its right. -/
def flatIndex : List Nat → List Nat → Nat
  | _ :: ds, i :: is => i * ds.prod + flatIndex ds is
  | _, _ => 0

/-- Unflattening loop shared by the elementwise operators, `transpose_2d`
and `matrix_product`: `temp = i; for d = N-1 .. 0: idx[d] = temp % dims[d];
temp /= dims[d]`.  Axis `0` receives `(i / prod(tail)) % d`; the tail is
recovered from `i % prod(tail)`, which leaves every tail residue
unchanged. -/
def unflatten : List Nat → Nat → List Nat
  | [], _ => []
  | d :: ds, i => (i / ds.prod) % d :: unflatten ds (i % ds.prod)

/-- Bounds predicate of the canonical access contract:
`0 ≤ idx[a] < shape[a]` for every axis (indices are `Nat`, so only the
upper bound is material), and the index tuple has one entry per axis. -/
def inBounds : List Nat → List Nat → Bool
  | [], [] => true
  | i :: is, d :: ds => decide (i < d) && inBounds is ds
  | _, _ => false

/-- `can_broadcast` of `src/unnamed/part_000`: per axis
`a[i] == b[i] || a[i] == 1 || b[i] == 1`. -/
def canBroadcast : List Nat → List Nat → Bool
  | [], [] => true
  | a :: as, b :: bs => (a == b || a == 1 || b == 1) && canBroadcast as bs
  | _, _ => false

/-- `broadcast_index` of `src/unnamed/part_000`:
`(dim_size == 1) ? 0 : i`. -/
def broadcastIndex (i dim : Nat) : Nat :=
  if dim == 1 then 0 else i

/-- Per-axis broadcast mapping of an index tuple against an operand's
shape, as in `other_indices[d] = broadcast_index(indices[d], other.dims[d])`. -/
def broadcastMap (idx dims : List Nat) : List Nat :=
  List.zipWith broadcastIndex idx dims

/-- Unchecked element read `data_[compute_flat_index(idx)]`
(`operator()` of `part_000` and of `Tensor.h`; those variants perform no
bounds check, out-of-range reads are undefined in C++ and modelled by the
`getD` default). -/
def Tensor.read {α : Type} [Inhabited α] (t : Tensor α) (idx : List Nat) : α :=
  t.data.getD (flatIndex t.shape idx) default

section IndexLemmas

/-- Reading a `List.range`-tabulated list at an in-range position yields
the tabulating function. -/
theorem getD_range_map {β : Type} (f : Nat → β) (n i : Nat) (d : β) (h : i < n) :
    ((List.range n).map f).getD i d = f i := by
  rw [List.getD_eq_getElem?_getD, List.getElem?_map, List.getElem?_range h]
  rfl

/-- Reading a replicated list in range yields the replicated value. -/
theorem getD_replicate {β : Type} (a d : β) (n i : Nat) (h : i < n) :
    (List.replicate n a).getD i d = a := by
  rw [List.getD_eq_getElem?_getD, List.getElem?_replicate, if_pos h]
  rfl

/-- Reading a mapped list in range maps the underlying read. -/
theorem getD_map {β γ : Type} (f : β → γ) (l : List β) (i : Nat) (d : β) (d2 : γ)
    (h : i < l.length) :
    (l.map f).getD i d2 = f (l.getD i d) := by
  rw [List.getD_eq_getElem?_getD, List.getElem?_map,
    List.getD_eq_getElem?_getD, List.getElem?_eq_getElem h]
  rfl

theorem inBounds_cons {i d : Nat} {is ds : List Nat} :
    inBounds (i :: is) (d :: ds) = true ↔ i < d ∧ inBounds is ds = true := by
  simp [inBounds]

/-- An in-bounds multi-index has a flat offset below the element count. -/
theorem flatIndex_lt_prod : ∀ (ds idx : List Nat), inBounds idx ds = true →
    flatIndex ds idx < ds.prod := by
  intro ds
  induction ds with
  | nil => intro idx h; cases idx <;> simp_all [inBounds, flatIndex]
  | cons d ds ih =>
    intro idx h
    cases idx with
    | nil => simp [inBounds] at h
    | cons i is =>
      rcases inBounds_cons.mp h with ⟨hid, hrest⟩
      have hr := ih is hrest
      calc i * ds.prod + flatIndex ds is < i * ds.prod + ds.prod :=
            Nat.add_lt_add_left hr _
        _ = (i + 1) * ds.prod := by ring
        _ ≤ d * ds.prod := Nat.mul_le_mul_right _ (Nat.succ_le_of_lt hid)
        _ = (d :: ds).prod := by simp [List.prod_cons]

/-- Round trip: unflattening the flat offset of an in-bounds multi-index
recovers the multi-index. -/
theorem unflatten_flatIndex : ∀ (ds idx : List Nat), inBounds idx ds = true →
    unflatten ds (flatIndex ds idx) = idx := by
  intro ds
  induction ds with
  | nil => intro idx h; cases idx <;> simp_all [inBounds, unflatten]
  | cons d ds ih =>
    intro idx h
    cases idx with
    | nil => simp [inBounds] at h
    | cons i is =>
      rcases inBounds_cons.mp h with ⟨hid, hrest⟩
      have hr := flatIndex_lt_prod ds is hrest
      have hp : 0 < ds.prod := Nat.pos_of_ne_zero (by
        intro h0
        rw [h0] at hr
        exact Nat.not_lt_zero _ hr)
      have hdiv : (i * ds.prod + flatIndex ds is) / ds.prod = i := by
        rw [Nat.add_comm, Nat.add_mul_div_right _ _ hp, Nat.div_eq_of_lt hr,
          Nat.zero_add]
      have hmod : (i * ds.prod + flatIndex ds is) % ds.prod = flatIndex ds is := by
        rw [Nat.add_comm, Nat.add_mul_mod_self_right, Nat.mod_eq_of_lt hr]
      show (_ / ds.prod) % d :: unflatten ds (_ % ds.prod) = i :: is
      rw [show flatIndex (d :: ds) (i :: is) = i * ds.prod + flatIndex ds is from rfl]
      rw [hdiv, hmod, Nat.mod_eq_of_lt hid, ih is hrest]

/-- The `inBounds` check agrees with the per-axis reading
`0 ≤ idx[a] < shape[a]` used by the canonical access contract, for an
index tuple of the right arity. -/
theorem inBounds_iff_getD : ∀ (is ds : List Nat), is.length = ds.length →
    (inBounds is ds = true ↔ ∀ a, a < ds.length → is.getD a 0 < ds.getD a 0) := by
  intro is
  induction is with
  | nil =>
    intro ds h
    cases ds with
    | nil => simp [inBounds]
    | cons d ds => simp at h
  | cons i is ih =>
    intro ds h
    cases ds with
    | nil => simp at h
    | cons d ds =>
      simp only [List.length_cons, Nat.succ.injEq] at h
      rw [inBounds_cons, ih ds h]
      constructor
      · rintro ⟨h1, h2⟩ a ha
        cases a with
        | zero => simpa using h1
        | succ a => exact h2 a (Nat.lt_of_succ_lt_succ ha)
      · intro hall
        refine ⟨by simpa using hall 0 (Nat.succ_pos _), fun a ha => ?_⟩
        exact hall (a + 1) (Nat.succ_lt_succ ha)

/-- A left fold of additions starting at the additive identity is the
finite sum (the `T sum = 0; sum += ...` accumulation pattern). -/
theorem foldl_add_range {β : Type} [AddCommMonoid β] (g : Nat → β) :
    ∀ n : Nat, (List.range n).foldl (fun s k => s + g k) 0 =
      ∑ k ∈ Finset.range n, g k := by
  intro n
  induction n with
  | zero => simp
  | succ n ih =>
    rw [List.range_succ, List.foldl_append, Finset.sum_range_succ, ih]
    rfl

/-- Mapping over a successful `Except` maps the payload. -/
theorem except_map_ok {ε β γ : Type} (f : β → γ) (x : β) :
    (Except.ok x : Except ε β).map f = Except.ok (f x) := rfl

end IndexLemmas

namespace P0

variable {α : Type}

/-- Constructors of `src/unnamed/part_000` lines 57-73: both the variadic
`Tensor(Dims... dims)` form and the `Tensor(const std::array&)` form store
the dimensions and `resize` the buffer to their product, value-initializing
every element (`T{}`, modelled by `default`). -/
def ofDims [Inhabited α] (dims : List Nat) : Tensor α :=
  ⟨dims, List.replicate dims.prod default⟩

/-- Default constructor (`part_000` lines 75-78): all axis sizes `1`, a
single value-initialized element. -/
def defaultTensor (n : Nat) [Inhabited α] : Tensor α :=
  ⟨List.replicate n 1, List.replicate 1 default⟩

/-- `fill(value)` (`part_000` line 103): overwrite every element. -/
def fill (t : Tensor α) (v : α) : Tensor α :=
  ⟨t.shape, t.data.map fun _ => v⟩

/-- Element write through `operator()` (`T&` return): store at the
row-major flat offset.  The `part_000` / `Tensor.h` accessors perform no
bounds check; an out-of-range write is undefined in C++ and modelled as a
no-op `List.set`. -/
def write (t : Tensor α) (idx : List Nat) (v : α) : Tensor α :=
  ⟨t.shape, t.data.set (flatIndex t.shape idx) v⟩

/-- `operator=(std::initializer_list<T>)` (`part_000` lines 105-109):
exact length match required, then positional copy. -/
def assignList (t : Tensor α) (l : List α) : Except String (Tensor α) :=
  if l.length = t.data.length then .ok ⟨t.shape, l⟩
  else .error "Data size does not match tensor size"

/-- `reshape` of `part_000` lines 111-126: after the arity check the new
shape is installed unconditionally; the buffer is grown with
value-initialized elements when the new product exceeds the old length
(`data_.resize(new_total, T{})`) and truncated by the final
`data_.resize(new_total)` when it is smaller.  No product check occurs. -/
def reshape [Inhabited α] (t : Tensor α) (ns : List Nat) : Except String (Tensor α) :=
  if ns.length = t.shape.length then
    .ok ⟨ns, ((t.data ++ List.replicate (ns.prod - t.data.length) default).take ns.prod)⟩
  else .error ("Number of dimensions do not match with " ++ toString t.shape.length)

/-- Common body of `operator+`, `operator-` and `operator*` of `part_000`
lines 128-198 (the three bodies are identical up to the element operator):
broadcast-compatibility check first, then a result of the LEFT operand's
shape whose `i`-th element combines `data_[i]` with the other operand read
at the unflattened index with the other operand's size-1 axes mapped
to `0`. -/
def ewise [Inhabited α] (op : α → α → α) (t other : Tensor α) :
    Except String (Tensor α) :=
  if canBroadcast t.shape other.shape then
    .ok ⟨t.shape, (List.range t.data.length).map fun i =>
      op (t.data.getD i default)
        (other.data.getD
          (flatIndex other.shape (broadcastMap (unflatten t.shape i) other.shape))
          default)⟩
  else .error "Shapes do not match and they are not compatible for broadcasting"

/-- `operator+(const Tensor&)` of `part_000`. -/
def add [Inhabited α] [Add α] (t other : Tensor α) : Except String (Tensor α) :=
  ewise (fun a b => a + b) t other

/-- `operator-(const Tensor&)` of `part_000`. -/
def sub [Inhabited α] [Sub α] (t other : Tensor α) : Except String (Tensor α) :=
  ewise (fun a b => a - b) t other

/-- `operator*(const Tensor&)` of `part_000`. -/
def mul [Inhabited α] [Mul α] (t other : Tensor α) : Except String (Tensor α) :=
  ewise (fun a b => a * b) t other

/-- `operator+(const T&)` (`part_000` lines 200-204): copy, then
`x += scalar` for every element. -/
def addScalar [Add α] (t : Tensor α) (s : α) : Tensor α :=
  ⟨t.shape, t.data.map fun x => x + s⟩

/-- `operator-(const T&)` (`part_000` lines 206-210). -/
def subScalar [Sub α] (t : Tensor α) (s : α) : Tensor α :=
  ⟨t.shape, t.data.map fun x => x - s⟩

/-- `operator*(const T&)` (`part_000` lines 212-216). -/
def mulScalar [Mul α] (t : Tensor α) (s : α) : Tensor α :=
  ⟨t.shape, t.data.map fun x => x * s⟩

/-- `operator/(const T&)` (`part_000` lines 218-222); division semantics
are those of the element type. -/
def divScalar [Div α] (t : Tensor α) (s : α) : Tensor α :=
  ⟨t.shape, t.data.map fun x => x / s⟩

/-- Free `operator+(scalar, tensor)` (`part_000` lines 271-274):
delegates to `tensor + scalar`. -/
def scalarAdd [Add α] (s : α) (t : Tensor α) : Tensor α :=
  addScalar t s

/-- Free `operator*(scalar, tensor)` (`part_000` lines 283-286):
delegates to `tensor * scalar`. -/
def scalarMul [Mul α] (s : α) (t : Tensor α) : Tensor α :=
  mulScalar t s

/-- Error message thrown by `matrix_product` for rank < 2 and for an
inner-dimension mismatch (both throw sites use the same text). -/
def mmIncompatMsg : String :=
  "Matrix dimensions are incompatible for multiplication"

/-- Error message thrown by `matrix_product` when the inner dimensions
match but a leading (batch) axis differs. -/
def mmBatchMsg : String :=
  "Matrix dimensions are compatible for multiplication but batch dimensions do not match"

/-- Result shape of `matrix_product`: `result_shape = a_shape` with
`result_shape[N-1] = b_shape[N-1]` (the write to `result_shape[N-2]` in
the source copies `a_shape[N-2]` onto itself). -/
def mmShape (a b : List Nat) : List Nat :=
  a.set (a.length - 1) (b.getD (a.length - 1) 0)

/-- Filled result of `matrix_product` for the dispatched ranks: every
output position `f` unflattens to a multi-index `idx` against the result
shape, and accumulates from `T sum = 0` the products of `A` read at `idx`
with its last coordinate replaced by `k` and `B` read at `idx` with its
second-to-last coordinate replaced by `k`, for `k` below `a_shape[N-1]`. -/
def mmTensor [Inhabited α] [Zero α] [Add α] [Mul α] (A B : Tensor α) : Tensor α :=
  ⟨mmShape A.shape B.shape,
    (List.range (mmShape A.shape B.shape).prod).map fun f =>
      (List.range (A.shape.getD (A.shape.length - 1) 0)).foldl
        (fun s k =>
          s + Tensor.read A ((unflatten (mmShape A.shape B.shape) f).set
                (A.shape.length - 1) k) *
            Tensor.read B ((unflatten (mmShape A.shape B.shape) f).set
                (A.shape.length - 2) k)) 0⟩

/-- `matrix_product` of `part_000` lines 334-408.  Checks in source order:
rank at least 2, inner dimensions `a[N-1] == b[N-2]`, then every leading
axis `a[i] == b[i]` for `i < N-2`.  The `if constexpr` dispatch constructs
and fills the result only for ranks 2, 3 and 4 (each branch instantiating
the same row-major index formula, here factored as `mmTensor`); for any
other rank no branch matches, so the default-constructed `result` is
returned untouched. -/
def matrixProduct [Inhabited α] [Zero α] [Add α] [Mul α] (A B : Tensor α) :
    Except String (Tensor α) :=
  if A.shape.length < 2 then .error mmIncompatMsg
  else if A.shape.getD (A.shape.length - 1) 0 = B.shape.getD (A.shape.length - 2) 0 then
    if (List.range (A.shape.length - 2)).all
        (fun i => A.shape.getD i 0 == B.shape.getD i 0) then
      if A.shape.length = 2 ∨ A.shape.length = 3 ∨ A.shape.length = 4 then
        .ok (mmTensor A B)
      else .ok (defaultTensor A.shape.length)
    else .error mmBatchMsg
  else .error mmIncompatMsg

end P0

namespace TH

variable {α : Type}

/-- `operator+` of `src/include/utec/algebra/Tensor.h` lines 83-90: exact
shape equality required, then positional combination. -/
def add [Inhabited α] [Add α] (t other : Tensor α) : Except String (Tensor α) :=
  if t.shape = other.shape then
    .ok ⟨t.shape, (List.range t.data.length).map fun i =>
      t.data.getD i default + other.data.getD i default⟩
  else .error "Shapes incompatibles para suma"

/-- `operator-` of `Tensor.h` lines 92-99. -/
def sub [Inhabited α] [Sub α] (t other : Tensor α) : Except String (Tensor α) :=
  if t.shape = other.shape then
    .ok ⟨t.shape, (List.range t.data.length).map fun i =>
      t.data.getD i default - other.data.getD i default⟩
  else .error "Shapes incompatibles para resta"

/-- Per-axis result shape of the broadcasting `operator*` of `Tensor.h`
lines 111-120: the common size when equal, otherwise whichever side is
not `1`; `none` models the thrown `invalid_argument`. -/
def broadcastShape : List Nat → List Nat → Option (List Nat)
  | [], [] => some []
  | a :: as, b :: bs =>
    (broadcastShape as bs).bind fun rest =>
      if a = b then some (a :: rest)
      else if a = 1 then some (b :: rest)
      else if b = 1 then some (a :: rest)
      else none
  | _, _ => none

/-- Broadcasting `operator*(const Tensor&)` of `Tensor.h` lines 108-144:
result shape per `broadcastShape`; every output element multiplies the
operands read at the unflattened output index with each operand's own
size-1 axes mapped to `0` (`idx_a[i] = (_shape[i]==1) ? 0 : idx[i]`). -/
def mul [Inhabited α] [Mul α] (t other : Tensor α) : Except String (Tensor α) :=
  match broadcastShape t.shape other.shape with
  | none => .error "Shapes incompatibles para broadcasting"
  | some rs =>
    .ok ⟨rs, (List.range rs.prod).map fun f =>
      let idx := unflatten rs f
      Tensor.read t (List.zipWith (fun d i => if d = 1 then 0 else i) t.shape idx) *
        Tensor.read other
          (List.zipWith (fun d i => if d = 1 then 0 else i) other.shape idx)⟩

/-- Strict `reshape` of `Tensor.h` lines 146-152: the new product must
equal the current element count, else `invalid_argument`; on success only
the shape descriptor is replaced, the buffer is untouched. -/
def reshape (t : Tensor α) (ns : List Nat) : Except String (Tensor α) :=
  if ns.prod = t.data.length then .ok ⟨ns, t.data⟩
  else .error "Nuevo shape incompatible con cantidad de elementos"

/-- `transpose_2d` of `Tensor.h` lines 154-163 (rank 2 by
`static_assert`): result shape `[cols, rows]`, `result(j, i) = (*this)(i, j)`.
The flat offset of `(j, i)` in the `[c, r]` result is `j * r + i`, so
output position `f` holds the input element at `(f % r) * c + f / r`.
Shapes that are not two-axis cannot instantiate the source template and
are returned unchanged. -/
def transpose2d [Inhabited α] (t : Tensor α) : Tensor α :=
  match t.shape, t.data with
  | [r, c], d =>
    ⟨[c, r], (List.range (c * r)).map fun f => d.getD ((f % r) * c + f / r) default⟩
  | _, _ => t

end TH

namespace CM

variable {α : Type}

/-- Bounds-checked `operator()` of the header embedded in
`src/CMakeLists.txt` (lines 202-233 of that file): each axis is validated
with `idx[i] >= shape_[i] -> throw std::out_of_range` while the row-major
offset is accumulated, so the access fails exactly when some axis index
is out of `[0, shape[a])` and otherwise reads the flat offset. -/
def accessChecked [Inhabited α] (t : Tensor α) (idx : List Nat) : Except String α :=
  if inBounds idx t.shape then .ok (t.data.getD (flatIndex t.shape idx) default)
  else .error "Index out of range"

/-- Friend `operator-(T scalar, const Tensor&)` of the CMake-embedded
header lines 191-196: every element becomes `scalar - elem`.  (The
corresponding `part_000` definition at lines 276-281 range-iterates over
`result.begin()` — a single iterator — instead of `result`, and is
ill-formed when instantiated; this definition models the compiling
implementation.) -/
def scalarSub [Sub α] (s : α) (t : Tensor α) : Tensor α :=
  ⟨t.shape, t.data.map fun x => s - x⟩

end CM

section RowMajor

/-- Row-major bound: a two-coordinate index below its bounds has a flat
offset below the element count. -/
theorem rowMajor_lt {a b c r : Nat} (ha : a < c) (hb : b < r) :
    a * r + b < c * r :=
  calc a * r + b < a * r + r := Nat.add_lt_add_left hb _
    _ = (a + 1) * r := by ring
    _ ≤ c * r := Nat.mul_le_mul_right _ (Nat.succ_le_of_lt ha)

/-- Setting the last entry of a list with at least two entries splits it
into the prefix, the penultimate entry and the new last entry. -/
theorem set_last_split : ∀ (l : List Nat) (v : Nat), 2 ≤ l.length →
    l.set (l.length - 1) v =
      l.take (l.length - 2) ++ [l.getD (l.length - 2) 0, v] := by
  intro l
  induction l with
  | nil => intro v h; simp at h
  | cons a l ih =>
    intro v h
    cases l with
    | nil => simp at h
    | cons b l =>
      cases l with
      | nil => rfl
      | cons cEl l =>
        have h2 : 2 ≤ (b :: cEl :: l).length := by simp
        have ihh := ih v h2
        simp only [List.length_cons] at ihh
        simp only [List.length_cons]
        have e1 : l.length + 1 + 1 + 1 - 1 = (l.length + 1) + 1 := by omega
        have e2 : l.length + 1 + 1 + 1 - 2 = l.length + 1 := by omega
        rw [e1, e2, List.set_cons_succ, List.take_succ_cons, List.getD_cons_succ]
        have e3 : l.length + 1 + 1 - 1 = l.length + 1 := by omega
        have e4 : l.length + 1 + 1 - 2 = l.length := by omega
        rw [e3, e4] at ihh
        rw [ihh]
        rfl

end RowMajor

/-- Successful case of the `part_000` elementwise operator body. -/
theorem P0.ewise_ok {α : Type} [Inhabited α] (op : α → α → α) (t other : Tensor α)
    (h : canBroadcast t.shape other.shape = true) :
    P0.ewise op t other = .ok ⟨t.shape, (List.range t.data.length).map fun i =>
      op (t.data.getD i default)
        (other.data.getD
          (flatIndex other.shape (broadcastMap (unflatten t.shape i) other.shape))
          default)⟩ := by
  unfold P0.ewise
  rw [if_pos h]

/-- Successful case of the elementwise operator body, with the left
operand's fields given separately. -/
theorem P0.ewise_ok_mk {α : Type} [Inhabited α] (op : α → α → α) (sh : List Nat)
    (dl : List α) (other : Tensor α) (h : canBroadcast sh other.shape = true) :
    P0.ewise op ⟨sh, dl⟩ other = .ok ⟨sh, (List.range dl.length).map fun i =>
      op (dl.getD i default)
        (other.data.getD
          (flatIndex other.shape (broadcastMap (unflatten sh i) other.shape))
          default)⟩ :=
  P0.ewise_ok op ⟨sh, dl⟩ other h

/-- Binding a successful `Except` applies the continuation. -/
theorem except_bind_ok {ε β γ : Type} (f : β → Except ε γ) (x : β) :
    (Except.ok x : Except ε β).bind f = f x := rfl

/-- The flat row-major offset of a two-axis index. -/
theorem flatIndex_pair (r c i j : Nat) : flatIndex [r, c] [i, j] = i * c + j := by
  simp [flatIndex]

/-- C1: the claimed universal broadcasting contract fails on the code: in
`part_000`, adding the `[1,3]` tensor `[1,2,3]` to the `[2,3]` tensor
`[10,..,60]` succeeds but produces shape `[1,3]` — the left operand's
shape — not the claimed per-axis maximum `[2,3]`. -/
theorem claim_C1_counterexample :
    (P0.add (⟨[1, 3], [1, 2, 3]⟩ : Tensor Int)
        ⟨[2, 3], [10, 20, 30, 40, 50, 60]⟩).map Tensor.shape = Except.ok [1, 3] ∧
      ([1, 3] : List Nat) ≠ List.zipWith max [1, 3] [2, 3] :=
  ⟨rfl, by decide⟩

/-- C1 (amended): `part_000`'s elementwise operators check per-axis
broadcast compatibility before any output is allocated and fail with the
shape-mismatch error otherwise; on success the result carries the LEFT
operand's shape, and the element at every in-bounds multi-index applies
the operator to the left operand read at that index and the right operand
read at that index with each of the right operand's size-1 axes mapped
to 0. -/
theorem claim_C1 {α : Type} [Inhabited α] (op : α → α → α) (A B : Tensor α)
    (hA : A.sizeOk) :
    (canBroadcast A.shape B.shape = false →
      P0.ewise op A B =
        .error "Shapes do not match and they are not compatible for broadcasting") ∧
    (canBroadcast A.shape B.shape = true →
      (P0.ewise op A B).map Tensor.shape = .ok A.shape ∧
      ∀ idx, inBounds idx A.shape = true →
        (P0.ewise op A B).map (fun r => r.read idx) =
          .ok (op (A.read idx) (B.read (broadcastMap idx B.shape)))) := by
  constructor
  · intro h
    unfold P0.ewise
    rw [if_neg]
    simp [h]
  · intro h
    have hok : P0.ewise op A B = .ok ⟨A.shape,
        (List.range A.data.length).map fun i =>
          op (A.data.getD i default)
            (B.data.getD
              (flatIndex B.shape (broadcastMap (unflatten A.shape i) B.shape))
              default)⟩ := by
      unfold P0.ewise
      rw [if_pos h]
    constructor
    · rw [hok, except_map_ok]
    · intro idx hidx
      have hfi : flatIndex A.shape idx < A.data.length := by
        rw [hA]
        exact flatIndex_lt_prod _ _ hidx
      rw [hok, except_map_ok]
      congr 1
      show (_ : List α).getD (flatIndex A.shape idx) default = _
      rw [getD_range_map _ _ _ _ hfi, unflatten_flatIndex _ _ hidx]
      rfl

/-- C3: the claimed universal strict-reshape contract fails on the code:
`part_000`'s `reshape` of the 4-element `[2,2]` tensor to `[3,3]`
(product 9) succeeds, silently growing the buffer with value-initialized
elements, instead of failing with a shape mismatch. -/
theorem claim_C3_counterexample :
    P0.reshape (⟨[2, 2], [1, 2, 3, 4]⟩ : Tensor Int) [3, 3] =
      Except.ok ⟨[3, 3], [1, 2, 3, 4, 0, 0, 0, 0, 0]⟩ ∧
      ([3, 3] : List Nat).prod ≠ ([1, 2, 3, 4] : List Int).length :=
  ⟨rfl, by decide⟩

/-- C3 (amended): the strict variant (`include/utec/algebra/Tensor.h`)
satisfies the claim — `reshape` succeeds iff the new product equals the
element count, replacing only the shape and leaving every flat position
untouched, and fails with the shape-mismatch error otherwise, mutating
nothing; the `part_000` variant instead never fails on a product
mismatch: it installs the new shape and resizes the buffer to the new
product, preserving the common prefix of elements. -/
theorem claim_C3 {α : Type} [Inhabited α] (t : Tensor α) (ns : List Nat)
    (hlen : ns.length = t.shape.length) :
    (ns.prod = t.data.length → TH.reshape t ns = .ok ⟨ns, t.data⟩) ∧
    (ns.prod ≠ t.data.length →
      TH.reshape t ns = .error "Nuevo shape incompatible con cantidad de elementos") ∧
    (P0.reshape t ns).map Tensor.shape = .ok ns ∧
    (P0.reshape t ns).map (fun r => r.data.length) = .ok ns.prod ∧
    (∀ k, k < t.data.length → k < ns.prod →
      (P0.reshape t ns).map (fun r => r.data.getD k default) =
        .ok (t.data.getD k default)) := by
  have hok : P0.reshape t ns = .ok ⟨ns,
      ((t.data ++ List.replicate (ns.prod - t.data.length) default).take ns.prod)⟩ := by
    unfold P0.reshape
    rw [if_pos hlen]
  refine ⟨fun h => by simp [TH.reshape, h], fun h => by simp [TH.reshape, h], ?_, ?_, ?_⟩
  · rw [hok, except_map_ok]
  · rw [hok, except_map_ok]
    congr 1
    show ((t.data ++ _).take ns.prod).length = _
    rw [List.length_take, List.length_append, List.length_replicate]
    omega
  · intro k hk hkp
    rw [hok, except_map_ok]
    congr 1
    show ((t.data ++ _).take ns.prod).getD k default = _
    rw [List.getD_eq_getElem?_getD, List.getElem?_take_of_lt hkp,
      List.getElem?_append_left hk, List.getD_eq_getElem?_getD]

/-- C4: the bounds-checking `operator()` (the CMake-embedded header; the
claim's own wording notes the unchecked `Tensor.h` variant as the gap this
contract closes) validates every axis index against the shape and fails
with the index error exactly when some axis is out of range, returning
the row-major element otherwise; the access mutates nothing (it is
modelled as a pure function of the tensor value). -/
theorem claim_C4 {α : Type} [Inhabited α] (t : Tensor α) (idx : List Nat)
    (hlen : idx.length = t.shape.length) :
    ((∀ a, a < t.shape.length → idx.getD a 0 < t.shape.getD a 0) →
      CM.accessChecked t idx = .ok (t.data.getD (flatIndex t.shape idx) default)) ∧
    ((∃ a, a < t.shape.length ∧ t.shape.getD a 0 ≤ idx.getD a 0) →
      CM.accessChecked t idx = .error "Index out of range") := by
  constructor
  · intro h
    have hb : inBounds idx t.shape = true := (inBounds_iff_getD _ _ hlen).mpr h
    simp [CM.accessChecked, hb]
  · rintro ⟨a, ha, hge⟩
    have hb : inBounds idx t.shape ≠ true := by
      intro hcon
      exact absurd ((inBounds_iff_getD _ _ hlen).mp hcon a ha) (Nat.not_lt.mpr hge)
    simp [CM.accessChecked, hb]

/-- C5: `transpose_2d` on a rank-2 tensor swaps the two axes of the shape,
transposes every element (`result(j, i) = input(i, j)`), and applying it
twice returns a tensor equal to the original in shape and in every
element. -/
theorem claim_C5 {α : Type} [Inhabited α] (t : Tensor α) (r c : Nat)
    (hsh : t.shape = [r, c]) (hlen : t.data.length = r * c) :
    (TH.transpose2d t).shape = [c, r] ∧
    (∀ i j, i < r → j < c → (TH.transpose2d t).read [j, i] = t.read [i, j]) ∧
    TH.transpose2d (TH.transpose2d t) = t := by
  obtain ⟨sh, d⟩ := t
  simp only at hsh hlen
  subst hsh
  have e1 : TH.transpose2d (⟨[r, c], d⟩ : Tensor α) = ⟨[c, r],
      (List.range (c * r)).map fun f => d.getD ((f % r) * c + f / r) default⟩ := rfl
  have e2 : TH.transpose2d (⟨[c, r],
      (List.range (c * r)).map fun f => d.getD ((f % r) * c + f / r) default⟩ : Tensor α) =
      ⟨[r, c], (List.range (r * c)).map fun f =>
        ((List.range (c * r)).map fun g => d.getD ((g % r) * c + g / r) default).getD
          ((f % c) * r + f / c) default⟩ := rfl
  refine ⟨by rw [e1], ?_, ?_⟩
  · intro i j hi hj
    have hr0 : 0 < r := Nat.zero_lt_of_lt hi
    rw [e1, Tensor.read, Tensor.read]
    show (_ : List α).getD (flatIndex [c, r] [j, i]) default = _
    rw [flatIndex_pair, flatIndex_pair,
      getD_range_map _ _ _ _ (rowMajor_lt hj hi)]
    have hmod : (j * r + i) % r = i := by
      rw [Nat.mul_comm j r, Nat.mul_add_mod, Nat.mod_eq_of_lt hi]
    have hdiv : (j * r + i) / r = j := by
      rw [Nat.mul_comm j r, Nat.mul_add_div hr0, Nat.div_eq_of_lt hi, Nat.add_zero]
    rw [hmod, hdiv]
  · rw [e1, e2]
    simp only [Tensor.mk.injEq]
    refine ⟨trivial, ?_⟩
    refine List.ext_getElem (by simp [hlen]) ?_
    intro f h1 h2
    have hflt : f < r * c := by simpa using h1
    rw [← List.getD_eq_getElem _ default h1, ← List.getD_eq_getElem _ default h2]
    have hc0 : 0 < c := by
      rcases Nat.eq_zero_or_pos c with h0 | h0
      · subst h0; simp at hflt
      · exact h0
    have hr0 : 0 < r := by
      rcases Nat.eq_zero_or_pos r with h0 | h0
      · subst h0; simp at hflt
      · exact h0
    have hflt2 : f < c * r := by rwa [Nat.mul_comm r c] at hflt
    have hfc : f / c < r := Nat.div_lt_of_lt_mul hflt2
    have hX : (f % c) * r + f / c < c * r := rowMajor_lt (Nat.mod_lt f hc0) hfc
    rw [getD_range_map _ _ _ _ hflt, getD_range_map _ _ _ _ hX]
    have hXmod : ((f % c) * r + f / c) % r = f / c := by
      rw [Nat.mul_comm (f % c) r, Nat.mul_add_mod, Nat.mod_eq_of_lt hfc]
    have hXdiv : ((f % c) * r + f / c) / r = f % c := by
      rw [Nat.mul_comm (f % c) r, Nat.mul_add_div hr0, Nat.div_eq_of_lt hfc,
        Nat.add_zero]
    rw [hXmod, hXdiv]
    have hf : (f / c) * c + f % c = f := by
      rw [Nat.mul_comm]
      exact Nat.div_add_mod f c
    rw [hf]

/-- C7: on broadcast-compatible operands, adding `B` and then subtracting
`B` returns a tensor equal to `A` in shape and every element, because both
operations give the result the left operand's shape and read `B` through
the same broadcast index mapping. -/
theorem claim_C7 {α : Type} [AddGroup α] [Inhabited α] (A B : Tensor α)
    (hc : canBroadcast A.shape B.shape = true) :
    (P0.add A B).bind (fun s => P0.sub s B) = Except.ok A := by
  obtain ⟨ash, ad⟩ := A
  change canBroadcast ash B.shape = true at hc
  unfold P0.add P0.sub
  rw [P0.ewise_ok_mk _ _ _ _ hc, except_bind_ok,
    P0.ewise_ok_mk (fun a b => a - b) ash _ B hc]
  simp only [Except.ok.injEq, Tensor.mk.injEq]
  refine ⟨trivial, ?_⟩
  refine List.ext_getElem (by simp) ?_
  intro f h1 h2
  have hf : f < ad.length := by simpa using h2
  rw [← List.getD_eq_getElem _ default h1, ← List.getD_eq_getElem _ default h2]
  have hlenmap : f < ((List.range ad.length).map fun i =>
      ad.getD i default +
        B.data.getD (flatIndex B.shape (broadcastMap (unflatten ash i) B.shape))
          default).length := by simpa using hf
  rw [getD_range_map _ _ _ _ (by simpa using hlenmap), getD_range_map _ _ _ _ hf]
  exact add_sub_cancel_right _ _

/-- Reading the filled `matrix_product` result at an in-bounds output
index yields the inner-product sum at that index. -/
theorem P0.mmTensor_read {α : Type} [Inhabited α] [AddCommMonoid α] [Mul α]
    (A B : Tensor α) (idx : List Nat)
    (hidx : inBounds idx (P0.mmShape A.shape B.shape) = true) :
    (P0.mmTensor A B).read idx =
      ∑ k ∈ Finset.range (A.shape.getD (A.shape.length - 1) 0),
        A.read (idx.set (A.shape.length - 1) k) *
          B.read (idx.set (A.shape.length - 2) k) := by
  show ((List.range (P0.mmShape A.shape B.shape).prod).map _).getD
      (flatIndex (P0.mmShape A.shape B.shape) idx) default = _
  rw [getD_range_map _ _ _ _ (flatIndex_lt_prod _ _ hidx)]
  simp only [unflatten_flatIndex _ _ hidx]
  rw [foldl_add_range]

/-- C2: the claimed behaviour for every rank at least 2 fails on the code:
at rank 5 the `if constexpr` dispatch of `matrix_product` has no branch,
so two `[1,1,1,2,2]` tensors that pass every dimension check multiply to
the default-constructed tensor of shape `[1,1,1,1,1]` with a single zero
element instead of a `[1,1,1,2,2]` result. -/
theorem claim_C2_counterexample :
    P0.matrixProduct (⟨[1, 1, 1, 2, 2], [1, 2, 3, 4]⟩ : Tensor Int)
        ⟨[1, 1, 1, 2, 2], [1, 1, 1, 1]⟩ = Except.ok ⟨[1, 1, 1, 1, 1], [0]⟩ ∧
      ([1, 1, 1, 1, 1] : List Nat) ≠ [1, 1, 1, 2, 2] :=
  ⟨rfl, by decide⟩

/-- C2 (amended): for the dispatched ranks 2, 3 and 4, `matrix_product`
on dimension-check-passing operands returns a tensor whose shape is the
common batch axes followed by `[a[R-2], b[R-1]]` and whose element at
every in-bounds output index is the inner-product sum seeded by the
additive identity; for any other rank it returns the default-constructed
tensor. -/
theorem claim_C2 {α : Type} [Inhabited α] [AddCommMonoid α] [Mul α]
    (A B : Tensor α)
    (hrank : A.shape.length = 2 ∨ A.shape.length = 3 ∨ A.shape.length = 4)
    (hinner : A.shape.getD (A.shape.length - 1) 0 = B.shape.getD (A.shape.length - 2) 0)
    (hbatch : ∀ i, i < A.shape.length - 2 → A.shape.getD i 0 = B.shape.getD i 0) :
    (P0.matrixProduct A B).map Tensor.shape = .ok (P0.mmShape A.shape B.shape) ∧
    P0.mmShape A.shape B.shape = A.shape.take (A.shape.length - 2) ++
      [A.shape.getD (A.shape.length - 2) 0, B.shape.getD (A.shape.length - 1) 0] ∧
    (∀ idx, inBounds idx (P0.mmShape A.shape B.shape) = true →
      (P0.matrixProduct A B).map (fun t => t.read idx) =
        .ok (∑ k ∈ Finset.range (A.shape.getD (A.shape.length - 1) 0),
          A.read (idx.set (A.shape.length - 1) k) *
            B.read (idx.set (A.shape.length - 2) k))) := by
  have hn2 : ¬ (A.shape.length < 2) := by rcases hrank with h | h | h <;> omega
  have hall : (List.range (A.shape.length - 2)).all
      (fun i => A.shape.getD i 0 == B.shape.getD i 0) = true := by
    rw [List.all_eq_true]
    intro x hx
    rw [beq_iff_eq]
    exact hbatch x (List.mem_range.mp hx)
  have hok : P0.matrixProduct A B = .ok (P0.mmTensor A B) := by
    unfold P0.matrixProduct
    rw [if_neg hn2, if_pos hinner, if_pos hall, if_pos hrank]
  refine ⟨by rw [hok]; rfl, ?_, ?_⟩
  · unfold P0.mmShape
    exact set_last_split A.shape _ (Nat.not_lt.mp hn2)
  · intro idx hidx
    rw [hok, except_map_ok, P0.mmTensor_read A B idx hidx]

/-- C6: `matrix_product` fails for rank below 2; for rank at least 2 it
fails with the incompatible-dimensions error exactly when the inner
dimensions `a[R-1]` and `b[R-2]` differ, and fails with the distinct
batch-dimensions error — reachable only after the inner dimensions
matched — exactly when some leading axis of the two shapes differs; batch
axes must be exactly equal, with no broadcasting. -/
theorem claim_C6 {α : Type} [Inhabited α] [Zero α] [Add α] [Mul α] (A B : Tensor α) :
    (A.shape.length < 2 → P0.matrixProduct A B = .error P0.mmIncompatMsg) ∧
    (2 ≤ A.shape.length →
      (P0.matrixProduct A B = .error P0.mmIncompatMsg ↔
        A.shape.getD (A.shape.length - 1) 0 ≠ B.shape.getD (A.shape.length - 2) 0)) ∧
    (2 ≤ A.shape.length →
      (P0.matrixProduct A B = .error P0.mmBatchMsg ↔
        A.shape.getD (A.shape.length - 1) 0 = B.shape.getD (A.shape.length - 2) 0 ∧
        ∃ i, i < A.shape.length - 2 ∧ A.shape.getD i 0 ≠ B.shape.getD i 0)) := by
  have hmsg : P0.mmIncompatMsg ≠ P0.mmBatchMsg := by decide
  refine ⟨?_, ?_, ?_⟩
  · intro h
    unfold P0.matrixProduct
    rw [if_pos h]
  · intro h2
    unfold P0.matrixProduct
    rw [if_neg (Nat.not_lt.mpr h2)]
    by_cases hinner : A.shape.getD (A.shape.length - 1) 0 =
        B.shape.getD (A.shape.length - 2) 0
    · rw [if_pos hinner]
      constructor
      · intro herr
        exfalso
        by_cases hall : (List.range (A.shape.length - 2)).all
            (fun i => A.shape.getD i 0 == B.shape.getD i 0) = true
        · rw [if_pos hall] at herr
          by_cases hrank : A.shape.length = 2 ∨ A.shape.length = 3 ∨ A.shape.length = 4
          · rw [if_pos hrank] at herr; simp at herr
          · rw [if_neg hrank] at herr; simp at herr
        · rw [if_neg hall] at herr
          exact hmsg (Except.error.inj herr).symm
      · intro hne
        exact absurd hinner hne
    · rw [if_neg hinner]
      exact ⟨fun _ => hinner, fun _ => rfl⟩
  · intro h2
    unfold P0.matrixProduct
    rw [if_neg (Nat.not_lt.mpr h2)]
    by_cases hinner : A.shape.getD (A.shape.length - 1) 0 =
        B.shape.getD (A.shape.length - 2) 0
    · rw [if_pos hinner]
      by_cases hall : (List.range (A.shape.length - 2)).all
          (fun i => A.shape.getD i 0 == B.shape.getD i 0) = true
      · rw [if_pos hall]
        constructor
        · intro herr
          exfalso
          by_cases hrank : A.shape.length = 2 ∨ A.shape.length = 3 ∨ A.shape.length = 4
          · rw [if_pos hrank] at herr; simp at herr
          · rw [if_neg hrank] at herr; simp at herr
        · rintro ⟨-, i, hi, hne⟩
          exfalso
          have hx := List.all_eq_true.mp hall i (List.mem_range.mpr hi)
          exact hne (by rwa [beq_iff_eq] at hx)
      · rw [if_neg hall]
        constructor
        · intro _
          refine ⟨hinner, ?_⟩
          rw [List.all_eq_true] at hall
          push_neg at hall
          obtain ⟨x, hx, hpx⟩ := hall
          exact ⟨x, List.mem_range.mp hx, fun heq => hpx (by rw [beq_iff_eq]; exact heq)⟩
        · intro _
          rfl
    · rw [if_neg hinner]
      constructor
      · intro herr
        exact absurd (Except.error.inj herr) hmsg
      · rintro ⟨hin, -⟩
        exact absurd hin hinner

/-- C8: every construction path establishes, and `fill`, indexed writes,
flat-literal assignment and both reshape variants preserve, the invariant
that the flat buffer's length equals the product of the axis sizes, with
the shape keeping one entry per axis. -/
theorem claim_C8 {α : Type} [Inhabited α] (t : Tensor α) (ht : t.sizeOk) :
    (∀ dims : List Nat, (P0.ofDims dims : Tensor α).sizeOk ∧
      (P0.ofDims dims : Tensor α).shape = dims) ∧
    (∀ n : Nat, (P0.defaultTensor n : Tensor α).sizeOk ∧
      (P0.defaultTensor n : Tensor α).shape.length = n) ∧
    (∀ v : α, (P0.fill t v).sizeOk ∧ (P0.fill t v).shape = t.shape) ∧
    (∀ idx v, (P0.write t idx v).sizeOk ∧ (P0.write t idx v).shape = t.shape) ∧
    (∀ l r, P0.assignList t l = .ok r → r.sizeOk ∧ r.shape = t.shape) ∧
    (∀ ns r, TH.reshape t ns = .ok r → r.sizeOk ∧ r.shape = ns) ∧
    (∀ ns r, P0.reshape t ns = .ok r → r.sizeOk ∧ r.shape = ns ∧
      r.shape.length = t.shape.length) := by
  refine ⟨?_, ?_, ?_, ?_, ?_, ?_, ?_⟩
  · intro dims
    exact ⟨by simp [P0.ofDims, Tensor.sizeOk], rfl⟩
  · intro n
    refine ⟨?_, by simp [P0.defaultTensor]⟩
    show (List.replicate 1 (default : α)).length = (List.replicate n 1).prod
    simp [List.prod_replicate]
  · intro v
    refine ⟨?_, rfl⟩
    unfold P0.fill Tensor.sizeOk
    simp only [List.length_map]
    exact ht
  · intro idx v
    refine ⟨?_, rfl⟩
    unfold P0.write Tensor.sizeOk
    simp only [List.length_set]
    exact ht
  · intro l r hok
    unfold P0.assignList at hok
    by_cases h : l.length = t.data.length
    · rw [if_pos h] at hok
      injection hok with h2
      subst h2
      refine ⟨?_, rfl⟩
      show l.length = t.shape.prod
      rw [h, ht]
    · rw [if_neg h] at hok
      simp at hok
  · intro ns r hok
    unfold TH.reshape at hok
    by_cases h : ns.prod = t.data.length
    · rw [if_pos h] at hok
      injection hok with h2
      subst h2
      exact ⟨h.symm, rfl⟩
    · rw [if_neg h] at hok
      simp at hok
  · intro ns r hok
    unfold P0.reshape at hok
    by_cases h : ns.length = t.shape.length
    · rw [if_pos h] at hok
      injection hok with h2
      subst h2
      refine ⟨?_, rfl, h⟩
      unfold Tensor.sizeOk
      simp only [List.length_take, List.length_append, List.length_replicate]
      omega
    · rw [if_neg h] at hok
      simp at hok

/-- C9: on the compiling implementations, every scalar arithmetic variant
applies the operator between each element and the scalar without any
failure path, the scalar-on-the-left `+` and `*` delegate to the
tensor-on-the-left forms, and `scalar - tensor` maps every element `x`
to `scalar - x`. -/
theorem claim_C9 {α : Type} [Inhabited α] [Add α] [Sub α] [Mul α] [Div α]
    (t : Tensor α) (s : α) :
    ((P0.addScalar t s).shape = t.shape ∧ ∀ k, k < t.data.length →
      (P0.addScalar t s).data.getD k default = t.data.getD k default + s) ∧
    ((P0.subScalar t s).shape = t.shape ∧ ∀ k, k < t.data.length →
      (P0.subScalar t s).data.getD k default = t.data.getD k default - s) ∧
    ((P0.mulScalar t s).shape = t.shape ∧ ∀ k, k < t.data.length →
      (P0.mulScalar t s).data.getD k default = t.data.getD k default * s) ∧
    ((P0.divScalar t s).shape = t.shape ∧ ∀ k, k < t.data.length →
      (P0.divScalar t s).data.getD k default = t.data.getD k default / s) ∧
    P0.scalarAdd s t = P0.addScalar t s ∧
    P0.scalarMul s t = P0.mulScalar t s ∧
    ((CM.scalarSub s t).shape = t.shape ∧ ∀ k, k < t.data.length →
      (CM.scalarSub s t).data.getD k default = s - t.data.getD k default) := by
  refine ⟨⟨rfl, ?_⟩, ⟨rfl, ?_⟩, ⟨rfl, ?_⟩, ⟨rfl, ?_⟩, rfl, rfl, ⟨rfl, ?_⟩⟩ <;>
    exact fun k hk => getD_map _ _ _ default _ hk

/-- C10: every construction path value-initializes the whole buffer, so
reading any in-bounds index of a freshly constructed tensor through the
checked accessor returns the element type's default value, and the
default constructor coincides with construction from an all-ones shape. -/
theorem claim_C10 {α : Type} [Inhabited α] :
    (∀ dims idx : List Nat, inBounds idx dims = true →
      CM.accessChecked (P0.ofDims dims : Tensor α) idx = .ok default) ∧
    (∀ n : Nat, (P0.defaultTensor n : Tensor α) = P0.ofDims (List.replicate n 1)) ∧
    (∀ n : Nat, ∀ idx : List Nat, inBounds idx (List.replicate n 1) = true →
      CM.accessChecked (P0.defaultTensor n : Tensor α) idx = .ok default) := by
  have h1 : ∀ dims idx : List Nat, inBounds idx dims = true →
      CM.accessChecked (P0.ofDims dims : Tensor α) idx = .ok default := by
    intro dims idx hb
    unfold CM.accessChecked P0.ofDims
    rw [if_pos hb]
    congr 1
    exact getD_replicate _ _ _ _ (flatIndex_lt_prod _ _ hb)
  have h2 : ∀ n : Nat, (P0.defaultTensor n : Tensor α) = P0.ofDims (List.replicate n 1) := by
    intro n
    simp [P0.defaultTensor, P0.ofDims, List.prod_replicate]
  refine ⟨h1, h2, fun n idx hb => ?_⟩
  rw [h2 n]
  exact h1 _ idx hb

/-- C1 witness: adding a `[1,3]` tensor to a `[2,3]` tensor on the left
yields the broadcast sum at index `(1,2)`. -/
theorem claim_C1_witness :
    canBroadcast [2, 3] [1, 3] = true ∧
    (P0.ewise (fun a b : Int => a + b) ⟨[2, 3], [1, 2, 3, 4, 5, 6]⟩
        ⟨[1, 3], [10, 20, 30]⟩).map (fun r => r.read [1, 2]) = Except.ok 36 := by
  refine ⟨by decide, ?_⟩
  have h := ((claim_C1 (fun a b : Int => a + b) ⟨[2, 3], [1, 2, 3, 4, 5, 6]⟩
    ⟨[1, 3], [10, 20, 30]⟩ (by decide)).2 (by decide)).2 [1, 2] (by decide)
  exact h.trans rfl

/-- C2 witness: the spec's concrete example — `[[1,2,3],[4,5,6]]` times a
`[3,4]` tensor of ones has shape `[2,4]` and value `15` at `(1,2)`. -/
theorem claim_C2_witness :
    (P0.matrixProduct (⟨[2, 3], [1, 2, 3, 4, 5, 6]⟩ : Tensor Int)
        ⟨[3, 4], [1, 1, 1, 1, 1, 1, 1, 1, 1, 1, 1, 1]⟩).map Tensor.shape =
      Except.ok [2, 4] ∧
    (P0.matrixProduct (⟨[2, 3], [1, 2, 3, 4, 5, 6]⟩ : Tensor Int)
        ⟨[3, 4], [1, 1, 1, 1, 1, 1, 1, 1, 1, 1, 1, 1]⟩).map
      (fun t => t.read [1, 2]) = Except.ok 15 := by
  have h := claim_C2 (⟨[2, 3], [1, 2, 3, 4, 5, 6]⟩ : Tensor Int)
    ⟨[3, 4], [1, 1, 1, 1, 1, 1, 1, 1, 1, 1, 1, 1]⟩ (by decide) (by decide)
    (fun i hi => absurd hi (Nat.not_lt_zero i))
  refine ⟨h.1.trans rfl, ?_⟩
  have he := h.2.2 [1, 2] (by decide)
  exact he.trans (congrArg Except.ok (by decide))

/-- C3 witness: the strict reshape of a 6-element `[2,3]` tensor to
`[3,3]` fails with the shape-mismatch error. -/
theorem claim_C3_witness :
    ([3, 3] : List Nat).prod ≠ ([1, 2, 3, 4, 5, 6] : List Int).length ∧
    TH.reshape (⟨[2, 3], [1, 2, 3, 4, 5, 6]⟩ : Tensor Int) [3, 3] =
      Except.error "Nuevo shape incompatible con cantidad de elementos" :=
  ⟨by decide,
    (claim_C3 (⟨[2, 3], [1, 2, 3, 4, 5, 6]⟩ : Tensor Int) [3, 3]
      (by decide)).2.1 (by decide)⟩

/-- C4 witness: a shape-`[2,3]` tensor accessed at `(2,0)` raises the
index error. -/
theorem claim_C4_witness :
    ([2, 3] : List Nat).getD 0 0 ≤ ([2, 0] : List Nat).getD 0 0 ∧
    CM.accessChecked (⟨[2, 3], [7, 7, 7, 7, 7, 7]⟩ : Tensor Int) [2, 0] =
      Except.error "Index out of range" :=
  ⟨by decide,
    (claim_C4 (⟨[2, 3], [7, 7, 7, 7, 7, 7]⟩ : Tensor Int) [2, 0] (by decide)).2
      ⟨0, by decide, by decide⟩⟩

/-- C5 witness: transposing a `[2,3]` tensor gives shape `[3,2]`, and
transposing twice restores the original tensor. -/
theorem claim_C5_witness :
    (TH.transpose2d (⟨[2, 3], [1, 2, 3, 4, 5, 6]⟩ : Tensor Int)).shape = [3, 2] ∧
    TH.transpose2d (TH.transpose2d (⟨[2, 3], [1, 2, 3, 4, 5, 6]⟩ : Tensor Int)) =
      ⟨[2, 3], [1, 2, 3, 4, 5, 6]⟩ := by
  have h := claim_C5 (⟨[2, 3], [1, 2, 3, 4, 5, 6]⟩ : Tensor Int) 2 3 rfl (by decide)
  exact ⟨h.1, h.2.2⟩

/-- C6 witness: the three failure conditions at concrete inputs — rank 1,
mismatched inner dimensions at rank 2, and mismatched batch dimensions at
rank 3 with matching inner dimensions. -/
theorem claim_C6_witness :
    P0.matrixProduct (⟨[3], [1, 2, 3]⟩ : Tensor Int) ⟨[3], [1, 2, 3]⟩ =
      Except.error P0.mmIncompatMsg ∧
    P0.matrixProduct (⟨[2, 3], [1, 2, 3, 4, 5, 6]⟩ : Tensor Int)
        ⟨[2, 4], [1, 1, 1, 1, 1, 1, 1, 1]⟩ = Except.error P0.mmIncompatMsg ∧
    P0.matrixProduct (⟨[2, 2, 2], [1, 1, 1, 1, 1, 1, 1, 1]⟩ : Tensor Int)
        ⟨[3, 2, 2], [1, 1, 1, 1, 1, 1, 1, 1, 1, 1, 1, 1]⟩ =
      Except.error P0.mmBatchMsg :=
  ⟨(claim_C6 (⟨[3], [1, 2, 3]⟩ : Tensor Int) ⟨[3], [1, 2, 3]⟩).1 (by decide),
    ((claim_C6 (⟨[2, 3], [1, 2, 3, 4, 5, 6]⟩ : Tensor Int)
      ⟨[2, 4], [1, 1, 1, 1, 1, 1, 1, 1]⟩).2.1 (by decide)).mpr (by decide),
    ((claim_C6 (⟨[2, 2, 2], [1, 1, 1, 1, 1, 1, 1, 1]⟩ : Tensor Int)
      ⟨[3, 2, 2], [1, 1, 1, 1, 1, 1, 1, 1, 1, 1, 1, 1]⟩).2.2 (by decide)).mpr
      ⟨by decide, 0, by decide, by decide⟩⟩

/-- C7 witness: adding and then subtracting a broadcast-compatible
`[1,2]` tensor returns the original `[2,2]` tensor. -/
theorem claim_C7_witness :
    canBroadcast [2, 2] [1, 2] = true ∧
    (P0.add (⟨[2, 2], [1, 2, 3, 4]⟩ : Tensor Int) ⟨[1, 2], [10, 20]⟩).bind
      (fun s => P0.sub s ⟨[1, 2], [10, 20]⟩) = Except.ok ⟨[2, 2], [1, 2, 3, 4]⟩ :=
  ⟨by decide,
    claim_C7 (⟨[2, 2], [1, 2, 3, 4]⟩ : Tensor Int) ⟨[1, 2], [10, 20]⟩ (by decide)⟩

/-- C8 witness: a concrete `[2,3]` tensor satisfies the size invariant
and keeps it after `fill`. -/
theorem claim_C8_witness :
    (⟨[2, 3], [1, 2, 3, 4, 5, 6]⟩ : Tensor Int).sizeOk ∧
    (P0.fill (⟨[2, 3], [1, 2, 3, 4, 5, 6]⟩ : Tensor Int) 9).sizeOk :=
  ⟨by decide, ((claim_C8 _ (by decide)).2.2.1 9).1⟩

/-- C9 witness: `10 - t` at flat position 2 of a `[2,2]` tensor holding
`[1,2,3,4]` equals `7`. -/
theorem claim_C9_witness :
    2 < ([1, 2, 3, 4] : List Int).length ∧
    (CM.scalarSub (10 : Int) ⟨[2, 2], [1, 2, 3, 4]⟩).data.getD 2 default = 7 := by
  refine ⟨by decide, ?_⟩
  have h := (claim_C9 (⟨[2, 2], [1, 2, 3, 4]⟩ : Tensor Int)
    10).2.2.2.2.2.2.2 2 (by decide)
  exact h.trans (by decide)

/-- C10 witness: a freshly constructed `[2,3]` integer tensor reads `0`
at the in-bounds index `(1,2)`. -/
theorem claim_C10_witness :
    inBounds [1, 2] [2, 3] = true ∧
    CM.accessChecked (P0.ofDims [2, 3] : Tensor Int) [1, 2] = Except.ok 0 := by
  refine ⟨by decide, ?_⟩
  have h := (claim_C10 (α := Int)).1 [2, 3] [1, 2] (by decide)
  exact h.trans rfl
